import Mathlib

/-!
Verification of the `duration_subsec` lint
(`src/tools/clippy/clippy_lints/src/duration_subsec.rs`).

The lint inspects one expression at a time: a division whose left operand is
a method call on a receiver of the well-known `Duration` type and whose right
operand constant-folds to an integer is matched against a fixed rewrite table
(`subsec_nanos` / 1000 ↦ `subsec_micros`, `subsec_nanos` / 1000000 ↦
`subsec_millis`, `subsec_micros` / 1000 ↦ `subsec_millis`); on a hit it emits
a machine-applicable suggestion built from the receiver's source text.

The embedding below mirrors the source's `check_expr` over a small HIR-like
expression type.  External collaborators consumed by the lint (the constant
evaluator `clippy_utils::consts::constant`, the source-text extractor, and
the `Duration` type itself) are modelled from the specification and marked as
such in their doc comments.
-/

namespace DurationSubsecLint

/-- Binary operator kinds of the host HIR (`rustc_hir::BinOpKind`), restricted
to the cases the lint and the modelled constant folder distinguish. -/
inductive BinOpKind where
  | add
  | sub
  | mul
  | div
  | rem
  | otherOp
deriving DecidableEq

/-- HIR expression shapes the lint distinguishes.  In the source HIR a method
call packs the receiver as `args[0]`; here the receiver is a separate field
and `args` holds the remaining (non-receiver) arguments, so the HIR invariant
that a method call has a receiver is structural. -/
inductive Expr where
  | binary (op : BinOpKind) (left right : Expr)
  | methodCall (method : String) (receiver : Expr) (args : List Expr)
  | lit (n : Int)
  | path (name : String)
  | otherExpr

/-- Static types, as far as the lint observes them: a nominal type with a
name, a reference to a type, or an undetermined type (e.g. an unresolved
generic). -/
inductive Ty where
  | adt (name : String)
  | ref (t : Ty)
  | infer
deriving DecidableEq

/-- `Ty::peel_refs`: strip any number of outer references. -/
def Ty.peel_refs : Ty → Ty
  | .ref t => Ty.peel_refs t
  | .adt n => .adt n
  | .infer => .infer

/-- `n` nested references around a type (used to state the reference-peeling
property for arbitrary depth). -/
def Ty.refN : Nat → Ty → Ty
  | 0, t => t
  | n + 1, t => .ref (Ty.refN n t)

/-- `clippy_utils::ty::is_type_diagnostic_item`: does the type denote the
named well-known (diagnostic-item) type?  Undetermined and reference types
themselves never match. -/
def is_type_diagnostic_item (t : Ty) (item : String) : Bool :=
  match t with
  | .adt n => n == item
  | _ => false

/-- Result of constant evaluation: a resolved integer or not-a-constant. -/
inductive ResolvedConstant where
  | int (n : Int)
  | notConstant
deriving DecidableEq

/-- Does a value fit in the signed 128-bit integer width used by the
constant evaluator? -/
def fits_i128 (n : Int) : Bool := decide (-(2 ^ 127) ≤ n ∧ n < 2 ^ 127)

/-- The exact mathematical fold of an arithmetic binary operator; `none` for
operators the evaluator does not fold. -/
def arith_fold : BinOpKind → Option (Int → Int → Int)
  | .add => some (· + ·)
  | .sub => some (· - ·)
  | .mul => some (· * ·)
  | _ => none

/-- Modelled from the spec: the host constant evaluator
(`clippy_utils::consts::constant`), whose source is not part of this
repository slice.  Per §4.2 it recursively folds literal integers, named
compile-time constants and simple arithmetic; function calls (anything other
than a literal constructor) are rejected as not-constant; a fold whose exact
result overflows the i128 width is reported as not-constant rather than
wrapped or panicked on. -/
def evaluate_constant (env : String → Option Int) : Expr → ResolvedConstant
  | .lit n => if fits_i128 n then .int n else .notConstant
  | .path c =>
    match env c with
    | some n => if fits_i128 n then .int n else .notConstant
    | none => .notConstant
  | .binary op l r =>
    match arith_fold op with
    | some f =>
      match evaluate_constant env l, evaluate_constant env r with
      | .int a, .int b => if fits_i128 (f a b) then .int (f a b) else .notConstant
      | _, _ => .notConstant
    | none => .notConstant
  | _ => .notConstant

/-- `rustc_errors::Applicability`. -/
inductive Applicability where
  | machineApplicable
  | maybeIncorrect
  | hasPlaceholders
  | unspecified
deriving DecidableEq

/-- One emitted diagnostic, as assembled by `span_lint_and_sugg`: the lint
message, the help label, the replacement text, and the applicability. -/
structure Suggestion where
  message : String
  help : String
  replacement : String
  applicability : Applicability
deriving DecidableEq

/-- The ambient facts `check_expr` consumes from the `LateContext`: the
static type of each expression (`typeck_results().expr_ty`), the named
constants visible to the evaluator, and the source text of each expression
(`snippet_with_applicability`; modelled from the spec's total `text_of`,
§6). -/
structure LateContext where
  expr_ty : Expr → Ty
  const_env : String → Option Int
  snippet : Expr → String

/-- The rewrite table: the `match (method_path.ident.as_str(), divisor)` of
the source, with the or-pattern arm first, then the `subsec_micros` arm,
then the catch-all `return`. -/
def suggested_fn (method : String) (divisor : Int) : Option String :=
  if (method = "subsec_micros" ∧ divisor = 1000) ∨
      (method = "subsec_nanos" ∧ divisor = 1000000) then
    some "subsec_millis"
  else if method = "subsec_nanos" ∧ divisor = 1000 then
    some "subsec_micros"
  else
    none

/-- The body of `<DurationSubsec as LateLintPass>::check_expr`: match a
division whose left operand is a method call on a `Duration`-typed receiver
(after peeling references) and whose right operand constant-folds to an
integer; look the (method, divisor) pair up in the rewrite table; on a hit
emit the suggestion, otherwise emit nothing. -/
def check_expr (cx : LateContext) (expr : Expr) : Option Suggestion :=
  match expr with
  | .binary .div left right =>
    match left with
    | .methodCall method_name receiver _args =>
      if is_type_diagnostic_item (Ty.peel_refs (cx.expr_ty receiver)) "Duration" then
        match evaluate_constant cx.const_env right with
        | .int divisor =>
          match suggested_fn method_name divisor with
          | some fn =>
            some { message := "calling `" ++ fn ++ "()` is more concise than this calculation"
                   help := "try"
                   replacement := cx.snippet receiver ++ "." ++ fn ++ "()"
                   applicability := .machineApplicable }
          | none => none
        | .notConstant => none
      else none
    | _ => none
  | _ => none

/-- `declare_lint_pass!(DurationSubsec => [DURATION_SUBSEC])`: the lint pass
struct, which has no fields (the pass carries no state). -/
structure DurationSubsec

/-- The lint-pass method: `check_expr` takes `&mut self`, so the model
threads the (field-less) pass value through and returns it alongside the
emitted diagnostic. -/
def DurationSubsec.check_expr (self : DurationSubsec) (cx : LateContext) (e : Expr) :
    DurationSubsec × Option Suggestion :=
  (self, DurationSubsecLint.check_expr cx e)

/-- The host traversal: visit the expressions in order, threading the pass
state, and collect the per-expression diagnostic outcomes. -/
def runPass (cx : LateContext) : DurationSubsec → List Expr → DurationSubsec × List (Option Suggestion)
  | s, [] => (s, [])
  | s, e :: es =>
    let st := DurationSubsec.check_expr s cx e
    let rest := runPass cx st.1 es
    (rest.1, st.2 :: rest.2)

/-- Modelled from the spec: the well-known duration type (GLOSSARY, §8),
which is host-standard-library code not part of this repository slice.  It
carries whole seconds plus a sub-second nanosecond remainder below one
billion. -/
structure Duration where
  secs : Nat
  nanos : Nat
  nanos_lt : nanos < 1000000000

/-- Modelled from the spec: the nanosecond-remainder accessor of the
duration type. -/
def Duration.subsec_nanos (d : Duration) : Nat := d.nanos

/-- Modelled from the spec: the microsecond-remainder accessor of the
duration type. -/
def Duration.subsec_micros (d : Duration) : Nat := d.nanos / 1000

/-- Modelled from the spec: the millisecond-remainder accessor of the
duration type. -/
def Duration.subsec_millis (d : Duration) : Nat := d.nanos / 1000000

/-- Evaluate a duration accessor by name (names outside the three remainder
accessors evaluate to 0; they are never reached by the rewrite table). -/
def durationEval (method : String) (d : Duration) : Nat :=
  if method = "subsec_nanos" then d.subsec_nanos
  else if method = "subsec_micros" then d.subsec_micros
  else if method = "subsec_millis" then d.subsec_millis
  else 0

/-- A context whose every expression is `Duration`-typed, has no named
constants, and whose every snippet reads `dur` (used to instantiate
universally quantified theorems at closed inputs). -/
def cxD : LateContext :=
  { expr_ty := fun _ => Ty.adt "Duration"
    const_env := fun _ => none
    snippet := fun _ => "dur" }

/-- A context whose snippets render a parenthesized field-access receiver,
used to instantiate the text-fidelity theorem. -/
def cxParen : LateContext :=
  { expr_ty := fun _ => Ty.adt "Duration"
    const_env := fun _ => none
    snippet := fun _ => "(x.dur)" }

/-- A context whose every expression is typed as a double reference to the
duration type, used to instantiate the reference-peeling theorem. -/
def cxRef : LateContext :=
  { expr_ty := fun _ => Ty.ref (Ty.ref (Ty.adt "Duration"))
    const_env := fun _ => none
    snippet := fun _ => "dur" }

set_option maxRecDepth 8000

theorem suggested_fn_some_iff (m : String) (d : Int) (fn : String) :
    suggested_fn m d = some fn ↔
      ((m = "subsec_micros" ∧ d = 1000 ∧ fn = "subsec_millis") ∨
       (m = "subsec_nanos" ∧ d = 1000000 ∧ fn = "subsec_millis") ∨
       (m = "subsec_nanos" ∧ d = 1000 ∧ fn = "subsec_micros")) := by
  unfold suggested_fn
  split_ifs with h1 h2
  · simp only [Option.some_inj]
    constructor
    · rintro rfl
      rcases h1 with ⟨rfl, rfl⟩ | ⟨rfl, rfl⟩
      · exact Or.inl ⟨rfl, rfl, rfl⟩
      · exact Or.inr (Or.inl ⟨rfl, rfl, rfl⟩)
    · rintro (⟨rfl, rfl, rfl⟩ | ⟨rfl, rfl, rfl⟩ | ⟨rfl, rfl, rfl⟩) <;> first | rfl | (exfalso; tauto)
  · simp only [Option.some_inj]
    constructor
    · rintro rfl
      exact Or.inr (Or.inr ⟨h2.1, h2.2, rfl⟩)
    · rintro (⟨rfl, rfl, rfl⟩ | ⟨rfl, rfl, rfl⟩ | ⟨rfl, rfl, rfl⟩) <;> first | rfl | (exfalso; tauto)
  · simp only [reduceCtorEq, false_iff]
    rintro (⟨rfl, rfl, rfl⟩ | ⟨rfl, rfl, rfl⟩ | ⟨rfl, rfl, rfl⟩) <;> tauto

theorem suggested_fn_none_iff (m : String) (d : Int) :
    suggested_fn m d = none ↔
      ¬((m = "subsec_nanos" ∧ d = 1000) ∨ (m = "subsec_nanos" ∧ d = 1000000) ∨
        (m = "subsec_micros" ∧ d = 1000)) := by
  unfold suggested_fn
  split_ifs with h1 h2 <;> simp only [reduceCtorEq, false_iff, not_not, true_iff] <;> tauto

theorem check_expr_hit (cx : LateContext) (m : String) (recv : Expr) (args : List Expr)
    (r : Expr) (d : Int) (fn : String)
    (ht : is_type_diagnostic_item (Ty.peel_refs (cx.expr_ty recv)) "Duration" = true)
    (hc : evaluate_constant cx.const_env r = .int d)
    (hf : suggested_fn m d = some fn) :
    check_expr cx (.binary .div (.methodCall m recv args) r) =
      some { message := "calling `" ++ fn ++ "()` is more concise than this calculation"
             help := "try"
             replacement := cx.snippet recv ++ "." ++ fn ++ "()"
             applicability := .machineApplicable } := by
  simp only [check_expr, ht, if_true, hc, hf]

theorem check_expr_some_inv (cx : LateContext) (e : Expr) (s : Suggestion)
    (h : check_expr cx e = some s) :
    ∃ m recv args r d fn,
      e = .binary .div (.methodCall m recv args) r ∧
      is_type_diagnostic_item (Ty.peel_refs (cx.expr_ty recv)) "Duration" = true ∧
      evaluate_constant cx.const_env r = .int d ∧
      suggested_fn m d = some fn ∧
      s = { message := "calling `" ++ fn ++ "()` is more concise than this calculation"
            help := "try"
            replacement := cx.snippet recv ++ "." ++ fn ++ "()"
            applicability := .machineApplicable } := by
  unfold check_expr at h
  split at h
  case _ left right =>
    split at h
    case _ m recv args =>
      split at h
      case isTrue ht =>
        split at h
        case _ d hc =>
          split at h
          case _ fn hf =>
            exact ⟨m, recv, args, right, d, fn, rfl, ht, hc, hf, (Option.some_inj.mp h).symm⟩
          case _ => exact absurd h (by simp)
        case _ => exact absurd h (by simp)
      case isFalse => exact absurd h (by simp)
    case _ => exact absurd h (by simp)
  case _ => exact absurd h (by simp)

theorem peel_refs_refN (n : Nat) (t : Ty) : Ty.peel_refs (Ty.refN n t) = Ty.peel_refs t := by
  induction n with
  | zero => rfl
  | succ k ih => simpa [Ty.refN, Ty.peel_refs] using ih

theorem check_expr_div_notConstant (cx : LateContext) (left r : Expr)
    (hc : evaluate_constant cx.const_env r = .notConstant) :
    check_expr cx (.binary .div left r) = none := by
  cases left
  case methodCall m recv args =>
    simp only [check_expr]
    split
    · rw [hc]
    · rfl
  all_goals rfl

/-- Claim C1: soundness of every emitted rewrite — for every (accessor,
divisor) key the rewrite table maps to a target accessor, and for every
duration value, the original division evaluates to exactly the value of the
suggested target accessor. -/
theorem rewrite_soundness (m : String) (d : Int) (fn : String)
    (hf : suggested_fn m d = some fn) (dur : Duration) :
    durationEval m dur / Int.toNat d = durationEval fn dur := by
  rcases (suggested_fn_some_iff m d fn).mp hf with ⟨rfl, rfl, rfl⟩ | ⟨rfl, rfl, rfl⟩ | ⟨rfl, rfl, rfl⟩
  · show dur.subsec_micros / 1000 = dur.subsec_millis
    show dur.nanos / 1000 / 1000 = dur.nanos / 1000000
    rw [Nat.div_div_eq_div_mul]
  · show dur.subsec_nanos / 1000000 = dur.subsec_millis
    rfl
  · show dur.subsec_nanos / 1000 = dur.subsec_micros
    rfl

/-- Witness for C1 at the key (`subsec_nanos`, 1000) and a concrete duration. -/
theorem rewrite_soundness_witness :
    durationEval "subsec_nanos" ⟨5, 987654321, by decide⟩ / Int.toNat 1000 =
      durationEval "subsec_micros" ⟨5, 987654321, by decide⟩ :=
  rewrite_soundness "subsec_nanos" 1000 "subsec_micros" (by decide) ⟨5, 987654321, by decide⟩

/-- Claim C2: the rewrite table is exactly the canonical rule set, and on any
matched expression whose (accessor, divisor) key is in the table the emitted
suggestion names the corresponding target accessor. -/
theorem rewrite_table_canonical :
    suggested_fn "subsec_nanos" 1000 = some "subsec_micros" ∧
    suggested_fn "subsec_nanos" 1000000 = some "subsec_millis" ∧
    suggested_fn "subsec_micros" 1000 = some "subsec_millis" ∧
    ∀ (cx : LateContext) (m : String) (recv : Expr) (args : List Expr) (r : Expr)
      (d : Int) (fn : String),
      is_type_diagnostic_item (Ty.peel_refs (cx.expr_ty recv)) "Duration" = true →
      evaluate_constant cx.const_env r = ResolvedConstant.int d →
      suggested_fn m d = some fn →
      check_expr cx (.binary .div (.methodCall m recv args) r) =
        some { message := "calling `" ++ fn ++ "()` is more concise than this calculation"
               help := "try"
               replacement := cx.snippet recv ++ "." ++ fn ++ "()"
               applicability := .machineApplicable } :=
  ⟨by decide, by decide, by decide,
   fun cx m recv args r d fn ht hc hf => check_expr_hit cx m recv args r d fn ht hc hf⟩

/-- Witness for C2: the (`subsec_micros`, 1000) key on a concrete expression. -/
theorem rewrite_table_canonical_witness :
    check_expr cxD (.binary .div (.methodCall "subsec_micros" (.path "dur") []) (.lit 1000)) =
      some { message := "calling `subsec_millis()` is more concise than this calculation"
             help := "try"
             replacement := "dur.subsec_millis()"
             applicability := .machineApplicable } :=
  rewrite_table_canonical.2.2.2 cxD "subsec_micros" (.path "dur") [] (.lit 1000) 1000
    "subsec_millis" (by decide) (by decide) (by decide)

/-- Claim C3: completeness of table-miss — for every (accessor, divisor) pair
that is not one of the three table keys (including divisor 0, negative
divisors, and divisors above nanoseconds-per-second) the check emits no
diagnostic. -/
theorem table_miss_silent (cx : LateContext) (m : String) (recv : Expr) (args : List Expr)
    (r : Expr) (d : Int)
    (hc : evaluate_constant cx.const_env r = .int d)
    (hmiss : ¬((m = "subsec_nanos" ∧ d = 1000) ∨ (m = "subsec_nanos" ∧ d = 1000000) ∨
               (m = "subsec_micros" ∧ d = 1000))) :
    check_expr cx (.binary .div (.methodCall m recv args) r) = none := by
  have hf : suggested_fn m d = none := (suggested_fn_none_iff m d).mpr hmiss
  by_cases ht : is_type_diagnostic_item (Ty.peel_refs (cx.expr_ty recv)) "Duration" = true
  · simp only [check_expr, ht, if_true, hc, hf]
  · simp only [check_expr, if_neg ht]

/-- Witness for C3 at the missed key (`subsec_nanos`, 0). -/
theorem table_miss_silent_witness :
    check_expr cxD (.binary .div (.methodCall "subsec_nanos" (.path "dur") []) (.lit 0)) = none :=
  table_miss_silent cxD "subsec_nanos" (.path "dur") [] (.lit 0) 0 (by decide) (by decide)

/-- Claim C4 (amended): a diagnostic is emitted only when the left operand of
the division is a method call — of any arity, not necessarily zero-argument —
whose receiver's static type, after peeling references, is the duration type;
and whenever the receiver of such a call is not duration-typed (including an
undetermined type), no diagnostic is emitted. -/
theorem matcher_requires_duration_receiver :
    (∀ (cx : LateContext) (e : Expr) (s : Suggestion), check_expr cx e = some s →
      ∃ m recv args r, e = .binary .div (.methodCall m recv args) r ∧
        is_type_diagnostic_item (Ty.peel_refs (cx.expr_ty recv)) "Duration" = true) ∧
    (∀ (cx : LateContext) (m : String) (recv : Expr) (args : List Expr) (r : Expr),
      is_type_diagnostic_item (Ty.peel_refs (cx.expr_ty recv)) "Duration" = false →
      check_expr cx (.binary .div (.methodCall m recv args) r) = none) := by
  constructor
  · intro cx e s h
    obtain ⟨m, recv, args, r, d, fn, he, ht, _, _, _⟩ := check_expr_some_inv cx e s h
    exact ⟨m, recv, args, r, he, ht⟩
  · intro cx m recv args r ht
    simp only [check_expr, ht, Bool.false_eq_true, if_false]

/-- Counterexample to C4 as stated: the source never checks the arity of the
method call, so the lint fires on a call carrying an extra (non-receiver)
argument — the left operand here is not a zero-argument method call, yet a
diagnostic is emitted. -/
theorem matcher_fires_on_nonzero_arity :
    check_expr cxD
        (.binary .div (.methodCall "subsec_nanos" (.path "dur") [.path "x"]) (.lit 1000)) =
      some { message := "calling `subsec_micros()` is more concise than this calculation"
             help := "try"
             replacement := "dur.subsec_micros()"
             applicability := .machineApplicable } ∧
    ([Expr.path "x"].length = 1) :=
  ⟨by decide, rfl⟩

/-- Witness for C4: both directions at concrete inputs — a duration-typed
receiver yields the structural decomposition, and a non-duration receiver
(scenario 6 of §8) yields silence. -/
theorem matcher_requires_duration_receiver_witness :
    (∃ m recv args r,
      Expr.binary .div (.methodCall "subsec_nanos" (.path "dur") []) (.lit 1000) =
        .binary .div (.methodCall m recv args) r ∧
      is_type_diagnostic_item (Ty.peel_refs (cxD.expr_ty recv)) "Duration" = true) ∧
    check_expr { expr_ty := fun _ => Ty.adt "Instant"
                 const_env := fun _ => none
                 snippet := fun _ => "y" }
        (.binary .div (.methodCall "some_unrelated_type_method" (.path "y") []) (.lit 1000)) =
      none :=
  ⟨matcher_requires_duration_receiver.1 cxD
      (.binary .div (.methodCall "subsec_nanos" (.path "dur") []) (.lit 1000))
      { message := "calling `subsec_micros()` is more concise than this calculation"
        help := "try"
        replacement := "dur.subsec_micros()"
        applicability := .machineApplicable }
      (by decide),
   matcher_requires_duration_receiver.2
      { expr_ty := fun _ => Ty.adt "Instant"
        const_env := fun _ => none
        snippet := fun _ => "y" }
      "some_unrelated_type_method" (.path "y") [] (.lit 1000) (by decide)⟩

/-- Claim C5: every emitted suggestion carries the machine-applicable
confidence level; no other applicability is ever attached. -/
theorem applicability_always_machine (cx : LateContext) (e : Expr) (s : Suggestion)
    (h : check_expr cx e = some s) :
    s.applicability = Applicability.machineApplicable := by
  obtain ⟨m, recv, args, r, d, fn, _, _, _, _, hs⟩ := check_expr_some_inv cx e s h
  rw [hs]

/-- Witness for C5 at a concrete emitted suggestion. -/
theorem applicability_always_machine_witness :
    Suggestion.applicability
        { message := "calling `subsec_micros()` is more concise than this calculation"
          help := "try"
          replacement := "dur.subsec_micros()"
          applicability := .machineApplicable } = Applicability.machineApplicable :=
  applicability_always_machine cxD
    (.binary .div (.methodCall "subsec_nanos" (.path "dur") []) (.lit 1000)) _ (by decide)

/-- Claim C6: every emitted suggestion's replacement text is the receiver's
source text, verbatim, concatenated with a dot, the target accessor name,
and call parentheses. -/
theorem replacement_text_fidelity (cx : LateContext) (e : Expr) (s : Suggestion)
    (h : check_expr cx e = some s) :
    ∃ m recv args r d fn,
      e = .binary .div (.methodCall m recv args) r ∧
      suggested_fn m d = some fn ∧
      evaluate_constant cx.const_env r = .int d ∧
      s.replacement = cx.snippet recv ++ "." ++ fn ++ "()" := by
  obtain ⟨m, recv, args, r, d, fn, he, _, hc, hf, hs⟩ := check_expr_some_inv cx e s h
  exact ⟨m, recv, args, r, d, fn, he, hf, hc, by rw [hs]⟩

/-- Witness for C6 with a parenthesized receiver snippet. -/
theorem replacement_text_fidelity_witness :
    ∃ m recv args r d fn,
      Expr.binary .div (.methodCall "subsec_nanos" (.path "x") []) (.lit 1000000) =
        .binary .div (.methodCall m recv args) r ∧
      suggested_fn m d = some fn ∧
      evaluate_constant cxParen.const_env r = .int d ∧
      Suggestion.replacement
          { message := "calling `subsec_millis()` is more concise than this calculation"
            help := "try"
            replacement := "(x.dur).subsec_millis()"
            applicability := .machineApplicable } = cxParen.snippet recv ++ "." ++ fn ++ "()" :=
  replacement_text_fidelity cxParen _ _ (by decide)

/-- Claim C7: a division whose left operand is a method call but whose right
operand does not resolve to a compile-time integer constant is never linted;
and (per the modelled evaluator) a call other than a literal constructor is
itself not a constant. -/
theorem non_constant_divisor_silent :
    (∀ (cx : LateContext) (m : String) (recv : Expr) (args : List Expr) (r : Expr),
      evaluate_constant cx.const_env r = .notConstant →
      check_expr cx (.binary .div (.methodCall m recv args) r) = none) ∧
    (∀ (env : String → Option Int) (m : String) (recv : Expr) (args : List Expr),
      evaluate_constant env (.methodCall m recv args) = .notConstant) :=
  ⟨fun cx m recv args r hc => check_expr_div_notConstant cx (.methodCall m recv args) r hc,
   fun _ _ _ _ => rfl⟩

/-- Witness for C7: scenario 5 of §8 — an unresolvable divisor variable. -/
theorem non_constant_divisor_silent_witness :
    check_expr cxD (.binary .div (.methodCall "subsec_nanos" (.path "dur") []) (.path "n")) =
      none :=
  non_constant_divisor_silent.1 cxD "subsec_nanos" (.path "dur") [] (.path "n") (by decide)

theorem runPass_snd (cx : LateContext) (s : DurationSubsec) (es : List Expr) :
    (runPass cx s es).2 = es.map (fun e => check_expr cx e) := by
  induction es generalizing s with
  | nil => rfl
  | cons e es ih =>
    show check_expr cx e :: (runPass cx s es).2 = check_expr cx e :: es.map (fun e => check_expr cx e)
    rw [ih]

/-- Claim C8: the lint pass is stateless and its check is a pure function of
the single expression plus the ambient facts — the pass value is returned
unchanged, the outcome does not depend on the pass state, the diagnostic for
an expression is the same whatever other expressions are visited around it,
and running the whole pass a second time on the same input reproduces the
same diagnostic list. -/
theorem check_pure_and_stateless (cx : LateContext) (s s' : DurationSubsec)
    (pre post es : List Expr) (e : Expr) :
    (DurationSubsec.check_expr s cx e).1 = s ∧
    (DurationSubsec.check_expr s cx e).2 = (DurationSubsec.check_expr s' cx e).2 ∧
    (runPass cx s (pre ++ e :: post)).2 =
      (runPass cx s pre).2 ++ (DurationSubsec.check_expr s cx e).2 :: (runPass cx s post).2 ∧
    (runPass cx (runPass cx s es).1 es).2 = (runPass cx s es).2 := by
  refine ⟨rfl, rfl, ?_, ?_⟩
  · rw [runPass_snd, runPass_snd, runPass_snd, List.map_append, List.map_cons]
    rfl
  · simp only [runPass_snd]

/-- Claim C9: constant folds that overflow the i128 width are reported as
not-a-constant (never wrapped, and the evaluator is total so it never
panics), and consequently a division by such an overflowing fold receives no
diagnostic. -/
theorem overflow_fold_not_constant (cx : LateContext) (op : BinOpKind)
    (l r : Expr) (a b : Int) (f : Int → Int → Int)
    (hop : arith_fold op = some f)
    (hl : evaluate_constant cx.const_env l = .int a)
    (hr : evaluate_constant cx.const_env r = .int b)
    (hof : fits_i128 (f a b) = false) :
    evaluate_constant cx.const_env (.binary op l r) = .notConstant ∧
    ∀ left : Expr, check_expr cx (.binary .div left (.binary op l r)) = none := by
  have h1 : evaluate_constant cx.const_env (.binary op l r) = .notConstant := by
    simp only [evaluate_constant, hop, hl, hr, hof, Bool.false_eq_true, if_false]
  exact ⟨h1, fun left => check_expr_div_notConstant cx left (.binary op l r) h1⟩

/-- Witness for C9: `(2^100) * (2^100)` overflows i128, is reported
not-constant, and silences the check. -/
theorem overflow_fold_not_constant_witness :
    evaluate_constant cxD.const_env (.binary .mul (.lit (2 ^ 100)) (.lit (2 ^ 100))) =
      ResolvedConstant.notConstant ∧
    check_expr cxD
        (.binary .div (.methodCall "subsec_nanos" (.path "dur") [])
          (.binary .mul (.lit (2 ^ 100)) (.lit (2 ^ 100)))) = none :=
  ⟨(overflow_fold_not_constant cxD .mul (.lit (2 ^ 100)) (.lit (2 ^ 100)) (2 ^ 100) (2 ^ 100)
      (· * ·) rfl (by decide) (by decide) (by decide)).1,
   (overflow_fold_not_constant cxD .mul (.lit (2 ^ 100)) (.lit (2 ^ 100)) (2 ^ 100) (2 ^ 100)
      (· * ·) rfl (by decide) (by decide) (by decide)).2
     (.methodCall "subsec_nanos" (.path "dur") [])⟩

/-- Claim C10: the duration-type test runs after peeling references, so a
receiver typed as a reference of any depth to the duration type also
satisfies the matcher and triggers the suggestion. -/
theorem receiver_refs_peeled (cx : LateContext) (n : Nat) (m : String) (recv : Expr)
    (args : List Expr) (r : Expr) (d : Int) (fn : String)
    (hty : cx.expr_ty recv = Ty.refN n (Ty.adt "Duration"))
    (hc : evaluate_constant cx.const_env r = .int d)
    (hf : suggested_fn m d = some fn) :
    check_expr cx (.binary .div (.methodCall m recv args) r) =
      some { message := "calling `" ++ fn ++ "()` is more concise than this calculation"
             help := "try"
             replacement := cx.snippet recv ++ "." ++ fn ++ "()"
             applicability := .machineApplicable } := by
  apply check_expr_hit cx m recv args r d fn _ hc hf
  rw [hty, peel_refs_refN]
  rfl

/-- Witness for C10 at reference depth 2. -/
theorem receiver_refs_peeled_witness :
    check_expr cxRef (.binary .div (.methodCall "subsec_nanos" (.path "dur") []) (.lit 1000)) =
      some { message := "calling `subsec_micros()` is more concise than this calculation"
             help := "try"
             replacement := "dur.subsec_micros()"
             applicability := .machineApplicable } :=
  receiver_refs_peeled cxRef 2 "subsec_nanos" (.path "dur") [] (.lit 1000) 1000
    "subsec_micros" (by decide) (by decide) (by decide)

end DurationSubsecLint
